import Mathlib

/-!
Verification of the core PDF page-selection logic of pdf-studio-pro
(`src/pdf_studio_pro_streamlit.py`): the range parser `_parse_segments`,
the operations `merge_pdfs`, `split_pdf`, `extract_pages`.

Python strings are modelled as lists of characters; PDF documents as
lists of pages over an arbitrary page type; Python exceptions as an
`Except` error type whose constructors correspond to the distinct
`ValueError` messages raised by the code (plus the `IndexError` a bad
page access would raise during assembly).
-/

deriving instance DecidableEq for Except

namespace PdfStudio

/-- Strings, modelled as lists of characters. -/
abbrev Str := List Char

/-- ASCII decimal digit test (the behaviour of Python `str.isdigit` on
the ASCII inputs this application handles). -/
def isDig (c : Char) : Bool := '0' ≤ c && c ≤ '9'

/-- Python `s.isdigit()`: `s` is non-empty and every character is a digit. -/
def isDigitStr (s : Str) : Bool := !s.isEmpty && s.all isDig

/-- Python `int(s)` on a string of decimal digits. -/
def toNatStr (s : Str) : Nat := s.foldl (fun a c => 10 * a + (c.toNat - 48)) 0

/-- Python `s.split(sep)` for a one-character separator: every occurrence
of `sep` splits, and empty pieces are kept. -/
def splitOnChar (sep : Char) : Str → Str → List Str
  | [], acc => [acc.reverse]
  | c :: cs, acc =>
    if c = sep then acc.reverse :: splitOnChar sep cs []
    else splitOnChar sep cs (c :: acc)

/-- Python `t.split("-", 1)`: the part before the first dash and the part
after it (only meaningful when `t` contains a dash). -/
def dashSplit (t : Str) : Str × Str :=
  (t.takeWhile (· ≠ '-'), (t.dropWhile (· ≠ '-')).tail)

/-- The distinct failures of the core operations: one constructor per
distinct `ValueError` message of the Python code, plus `assemblyError`
for the `IndexError` an out-of-range page access would raise. -/
inductive PdfError
  /-- message `"No ranges provided."` -/
  | emptySpec
  /-- message `"Invalid range: {t}"` -/
  | invalidRange (t : Str)
  /-- message `"Invalid page number: {t}"` -/
  | invalidPageNumber (t : Str)
  /-- message `"Invalid segment: {t}"` -/
  | invalidSegment (t : Str)
  /-- message `"Segment {t} exceeds total pages ({total})."` -/
  | segmentOutOfBounds (t : Str) (total : Nat)
  /-- message `"Page {p} out of bounds (1..{total})."` -/
  | pageOutOfBounds (p : Nat) (total : Nat)
  /-- an out-of-range page access during assembly -/
  | assemblyError
  deriving DecidableEq, Repr

/-- Python `spec_text.replace(" ", "")`: remove every space character
(and only spaces). -/
def stripSpaces (s : Str) : Str := s.filter (· ≠ ' ')

/-- The bounds checks at the end of the `_parse_segments` loop body:
`start < 1 or end < 1 or end < start` then `end > total_pages`. -/
def checkSeg (total : Nat) (t : Str) (s e : Nat) : Except PdfError (Nat × Nat) :=
  if s < 1 || e < 1 || e < s then .error (.invalidSegment t)
  else if total < e then .error (.segmentOutOfBounds t total)
  else .ok (s, e)

/-- The body of the `_parse_segments` loop for one token: `a, b = t.split("-", 1)`
when the token contains a dash, both halves must be digit strings; a bare
token must itself be a digit string; then the bounds checks run. -/
def parseToken (total : Nat) (t : Str) : Except PdfError (Nat × Nat) :=
  if '-' ∈ t then
    if !isDigitStr (dashSplit t).1 || !isDigitStr (dashSplit t).2 then
      .error (.invalidRange t)
    else checkSeg total t (toNatStr (dashSplit t).1) (toNatStr (dashSplit t).2)
  else
    if !isDigitStr t then .error (.invalidPageNumber t)
    else checkSeg total t (toNatStr t) (toNatStr t)

/-- The `for t in tokens` loop of `_parse_segments`, accumulating segments
in token order, aborting at the first failing token. -/
def parseLoop (total : Nat) : List Str → Except PdfError (List (Nat × Nat))
  | [] => .ok []
  | t :: ts => do
    let sg ← parseToken total t
    let rest ← parseLoop total ts
    .ok (sg :: rest)

/-- The non-empty comma-separated tokens of the space-stripped spec:
`[t for t in spec_text.split(",") if t]`. -/
def tokensOf (spec : Str) : List Str :=
  (splitOnChar ',' (stripSpaces spec) []).filter (· ≠ [])

/-- Python `_parse_segments(spec_text, total_pages)`. -/
def parse_segments (spec : Str) (total : Nat) : Except PdfError (List (Nat × Nat)) :=
  if (stripSpaces spec).isEmpty then .error .emptySpec
  else parseLoop total (tokensOf spec)

/-- The `(start, end)` value a token denotes, before any validation:
a bare number `n` denotes `(n, n)`, a dashed token `a-b` denotes `(a, b)`. -/
def tokenValue (t : Str) : Nat × Nat :=
  if '-' ∈ t then (toNatStr (dashSplit t).1, toNatStr (dashSplit t).2)
  else (toNatStr t, toNatStr t)

/-- Whether a token passes the digit checks (both dash-halves are digit
strings, or the bare token is a digit string), so that it denotes a
`(start, end)` pair at all. -/
def tokenWellFormed (t : Str) : Bool :=
  if '-' ∈ t then isDigitStr (dashSplit t).1 && isDigitStr (dashSplit t).2
  else isDigitStr t

/-- The decimal digit characters, as produced by Python `str(n)`
(only ever applied to `n < 10`). -/
def digitChar (d : Nat) : Char :=
  if d = 0 then '0' else if d = 1 then '1' else if d = 2 then '2'
  else if d = 3 then '3' else if d = 4 then '4' else if d = 5 then '5'
  else if d = 6 then '6' else if d = 7 then '7' else if d = 8 then '8' else '9'

/-- Decimal rendering of a natural number, structurally recursive on a
fuel bound so that it reduces in the kernel; `acc` holds the already
rendered low-order digits. -/
def natReprGo : Nat → Nat → Str → Str
  | 0, _, acc => acc
  | fuel + 1, n, acc =>
    if n < 10 then digitChar n :: acc
    else natReprGo fuel (n / 10) (digitChar (n % 10) :: acc)

/-- Python `str(n)` for a natural number. -/
def natRepr (n : Nat) : Str := natReprGo (n + 1) n []

/-- The output filename `split_pdf` builds for the segment `(s, e)`:
`f"{base}_p{start}.pdf"` when `s = e`, else `f"{base}_p{start}-{end}.pdf"`. -/
def segName (base : Str) (s e : Nat) : Str :=
  if s = e then base ++ '_' :: 'p' :: (natRepr s ++ ['.', 'p', 'd', 'f'])
  else base ++ '_' :: 'p' :: (natRepr s ++ '-' :: (natRepr e ++ ['.', 'p', 'd', 'f']))

/-- Python `original_filename.rsplit(chr(46), 1)[0]`: everything before the last dot. -/
def rsplitBase (fname : Str) : Str :=
  ((fname.reverse.dropWhile (· ≠ '.')).tail).reverse

/-- The `base` computed by `split_pdf`: the filename with its final
extension removed when it contains a dot, the whole filename otherwise. -/
def baseOf (fname : Str) : Str :=
  if '.' ∈ fname then rsplitBase fname else fname

section Operations

variable {α : Type}

/-- Python `merge_pdfs(uploaded_files)`: a fresh writer, then for each document
every page is appended in order; a document is a list of pages. -/
def merge_pdfs (docs : List (List α)) : List α :=
  docs.foldl (fun writer d => d.foldl (fun w pg => w ++ [pg]) writer) []

/-- Python `reader.pages[i]` (0-indexed): the `IndexError` an out-of-range access
would raise is modelled as `assemblyError`. -/
def getPage (doc : List α) (i : Nat) : Except PdfError α :=
  match doc[i]? with
  | some pg => .ok pg
  | none => .error .assemblyError

/-- Fetch the pages at the given 0-based indices, in order. -/
def fetchPages (doc : List α) : List Nat → Except PdfError (List α)
  | [] => .ok []
  | i :: is => do
    let pg ← getPage doc i
    let rest ← fetchPages doc is
    .ok (pg :: rest)

/-- The `for idx, (start, end) in enumerate(segments)` loop of `split_pdf`:
one output per segment, pages `range(start - 1, end)` of the source. -/
def splitLoop (doc : List α) (base : Str) :
    List (Nat × Nat) → Except PdfError (List (Str × List α))
  | [] => .ok []
  | (s, e) :: rest => do
    let pages ← fetchPages doc (List.range' (s - 1) (e - (s - 1)))
    let r ← splitLoop doc base rest
    .ok ((segName base s e, pages) :: r)

/-- Python `split_pdf(uploaded_file, spec_text, original_filename)`: parse the
spec against the page count, then build one named output per segment. -/
def split_pdf (doc : List α) (spec : Str) (fname : Str) :
    Except PdfError (List (Str × List α)) := do
  let segments ← parse_segments spec doc.length
  splitLoop doc (baseOf fname) segments

/-- The whitespace characters of Python `str.strip()`. -/
def pyIsSpace (c : Char) : Bool :=
  c = ' ' || c = '\t' || c = '\n' || c = '\r' || c = '\x0b' || c = '\x0c'

/-- Python `s.strip()`: remove leading and trailing whitespace. -/
def pyStrip (s : Str) : Str :=
  ((s.dropWhile pyIsSpace).reverse.dropWhile pyIsSpace).reverse

/-- The tokens of `extract_pages`:
`[p.strip() for p in pages_text.split(",") if p.strip()]`. -/
def extractTokens (text : Str) : List Str :=
  ((splitOnChar ',' text []).map pyStrip).filter (· ≠ [])

/-- The `for p in pages` loop of `extract_pages`: each token must be a bare
number within `1..total`; its page is appended to the output in list order. -/
def extractLoop (doc : List α) (total : Nat) : List Str → Except PdfError (List α)
  | [] => .ok []
  | p :: ps =>
    if !isDigitStr p then .error (.invalidPageNumber p)
    else
      let pInt := toNatStr p
      if pInt < 1 || total < pInt then .error (.pageOutOfBounds pInt total)
      else do
        let pg ← getPage doc (pInt - 1)
        let rest ← extractLoop doc total ps
        .ok (pg :: rest)

/-- Python `extract_pages(uploaded_file, pages_text)`: one output holding the
listed pages in the exact order given. -/
def extract_pages (doc : List α) (text : Str) : Except PdfError (List α) :=
  extractLoop doc doc.length (extractTokens text)

/-- Whether a result is the defensive assembly failure (an out-of-range
page access after validation). -/
def isAssemblyFailure {β : Type} : Except PdfError β → Bool
  | .error .assemblyError => true
  | _ => false

end Operations

/-! ### Parser lemmas -/

theorem checkSeg_ok {total : Nat} {t : Str} {s e : Nat} {sg : Nat × Nat}
    (h : checkSeg total t s e = .ok sg) :
    sg = (s, e) ∧ 1 ≤ s ∧ s ≤ e ∧ e ≤ total := by
  unfold checkSeg at h
  split at h
  · cases h
  · split at h
    · cases h
    · cases h
      rename_i h₁ h₂
      simp only [Bool.or_eq_true, decide_eq_true_eq, not_or] at h₁ h₂
      refine ⟨rfl, ?_, ?_, ?_⟩ <;> omega

theorem checkSeg_invalid {total : Nat} {t : Str} {s e : Nat}
    (h : s < 1 ∨ e < 1 ∨ e < s) : checkSeg total t s e = .error (.invalidSegment t) := by
  unfold checkSeg
  rw [if_pos (by simp only [Bool.or_eq_true, decide_eq_true_eq]; omega)]

theorem checkSeg_oob {total : Nat} {t : Str} {s e : Nat}
    (h1 : 1 ≤ s) (h2 : s ≤ e) (h : total < e) :
    checkSeg total t s e = .error (.segmentOutOfBounds t total) := by
  unfold checkSeg
  rw [if_neg (by simp only [Bool.or_eq_true, decide_eq_true_eq]; omega), if_pos (by omega)]

theorem parseToken_wellFormed_eq {total : Nat} {t : Str} (hw : tokenWellFormed t = true) :
    parseToken total t = checkSeg total t (tokenValue t).1 (tokenValue t).2 := by
  unfold parseToken tokenValue
  unfold tokenWellFormed at hw
  by_cases hd : '-' ∈ t
  · rw [if_pos hd] at hw ⊢
    rw [if_pos hd]
    rw [Bool.and_eq_true] at hw
    rw [if_neg (by simp [hw.1, hw.2])]
  · rw [if_neg hd] at hw ⊢
    rw [if_neg hd]
    rw [if_neg (by simp [hw])]

theorem parseToken_ok_value {total : Nat} {t : Str} {sg : Nat × Nat}
    (h : parseToken total t = .ok sg) : sg = tokenValue t := by
  unfold parseToken at h
  unfold tokenValue
  split at h
  · rename_i hd
    rw [if_pos hd]
    split at h
    · cases h
    · exact (checkSeg_ok h).1
  · rename_i hd
    rw [if_neg hd]
    split at h
    · cases h
    · exact (checkSeg_ok h).1

theorem parseToken_ok_valid {total : Nat} {t : Str} {sg : Nat × Nat}
    (h : parseToken total t = .ok sg) : 1 ≤ sg.1 ∧ sg.1 ≤ sg.2 ∧ sg.2 ≤ total := by
  unfold parseToken at h
  split at h <;> split at h <;> try cases h
  all_goals
    obtain ⟨hsg, hv⟩ := checkSeg_ok h
    subst hsg
    exact hv

theorem parseLoop_ok_forall₂ {total : Nat} : ∀ {ts : List Str} {segs : List (Nat × Nat)},
    parseLoop total ts = .ok segs →
    List.Forall₂ (fun t sg => parseToken total t = .ok sg) ts segs := by
  intro ts
  induction ts with
  | nil => intro segs h; simp only [parseLoop] at h; cases h; exact List.Forall₂.nil
  | cons t ts ih =>
    intro segs h
    simp only [parseLoop, bind, Except.bind] at h
    cases htok : parseToken total t with
    | error e => rw [htok] at h; cases h
    | ok sg =>
      rw [htok] at h
      cases hrest : parseLoop total ts with
      | error e => rw [hrest] at h; cases h
      | ok rest =>
        rw [hrest] at h
        cases h
        exact List.Forall₂.cons htok (ih hrest)

theorem parse_segments_ok_loop {spec : Str} {total : Nat} {segs : List (Nat × Nat)}
    (h : parse_segments spec total = .ok segs) :
    parseLoop total (tokensOf spec) = .ok segs := by
  unfold parse_segments at h
  split at h
  · cases h
  · exact h

theorem parseLoop_failfast {total : Nat} {e : PdfError} :
    ∀ {ts₁ : List Str} (t : Str) (ts₂ : List Str),
    (∀ u ∈ ts₁, ∃ sg, parseToken total u = .ok sg) →
    parseToken total t = .error e →
    parseLoop total (ts₁ ++ t :: ts₂) = .error e := by
  intro ts₁
  induction ts₁ with
  | nil =>
    intro t ts₂ _ ht
    simp only [List.nil_append, parseLoop, ht, bind, Except.bind]
  | cons u us ih =>
    intro t ts₂ hok ht
    obtain ⟨sg, hsg⟩ := hok u (List.mem_cons_self u us)
    have hrest := ih t ts₂ (fun v hv => hok v (List.mem_cons_of_mem u hv)) ht
    simp only [List.cons_append, parseLoop, hsg, bind, Except.bind, List.append_eq, hrest]

theorem parse_segments_failfast {spec : Str} {total : Nat} {ts₁ ts₂ : List Str}
    {t : Str} {e : PdfError}
    (htoks : tokensOf spec = ts₁ ++ t :: ts₂)
    (hok : ∀ u ∈ ts₁, ∃ sg, parseToken total u = .ok sg)
    (ht : parseToken total t = .error e) :
    parse_segments spec total = .error e := by
  unfold parse_segments
  split
  · rename_i hempty
    exfalso
    have : tokensOf spec = [] := by
      unfold tokensOf
      rw [List.isEmpty_iff] at hempty
      rw [hempty]
      rfl
    rw [this] at htoks
    exact (List.append_ne_nil_of_right_ne_nil ts₁ (List.cons_ne_nil t ts₂)) htoks.symm
  · rw [htoks]
    exact parseLoop_failfast t ts₂ hok ht

theorem forall₂_mem_right {R : Str → Nat × Nat → Prop} :
    ∀ {ts : List Str} {segs : List (Nat × Nat)}, List.Forall₂ R ts segs →
    ∀ sg ∈ segs, ∃ t ∈ ts, R t sg := by
  intro ts segs h
  induction h with
  | nil => intro sg hsg; cases hsg
  | cons hR _ ih =>
    intro sg hsg
    rcases List.mem_cons.mp hsg with hsg | hsg
    · subst hsg; exact ⟨_, List.mem_cons_self _ _, hR⟩
    · obtain ⟨t, ht, hRt⟩ := ih sg hsg
      exact ⟨t, List.mem_cons_of_mem _ ht, hRt⟩

/-! ### Decimal rendering lemmas -/

theorem isDig_digitChar (d : Nat) : isDig (digitChar d) = true := by
  unfold digitChar
  repeat' split
  all_goals rfl

theorem digitChar_val {d : Nat} (h : d < 10) : (digitChar d).toNat - 48 = d := by
  interval_cases d <;> decide

theorem natReprGo_append : ∀ (fuel n : Nat) (acc : Str),
    natReprGo fuel n acc = natReprGo fuel n [] ++ acc := by
  intro fuel
  induction fuel with
  | zero => intro n acc; rfl
  | succ fuel ih =>
    intro n acc
    unfold natReprGo
    split
    · rfl
    · rw [ih (n / 10) (digitChar (n % 10) :: acc), ih (n / 10) [digitChar (n % 10)]]
      simp [List.append_assoc]

theorem natReprGo_fuel : ∀ (fuel n : Nat), n < fuel → ∀ (fuel' : Nat), n < fuel' →
    natReprGo fuel n [] = natReprGo fuel' n [] := by
  intro fuel
  induction fuel with
  | zero => intro n hn; omega
  | succ fuel ih =>
    intro n hn fuel' hn'
    cases fuel' with
    | zero => omega
    | succ fuel' =>
      unfold natReprGo
      split
      · rfl
      · rename_i hge
        have h10 : 10 ≤ n := Nat.le_of_not_lt hge
        have hdiv : n / 10 < n := Nat.div_lt_self (by omega) (by omega)
        rw [natReprGo_append fuel, natReprGo_append fuel']
        rw [ih (n / 10) (by omega) fuel' (by omega)]

theorem natRepr_lt10 {n : Nat} (h : n < 10) : natRepr n = [digitChar n] := by
  unfold natRepr natReprGo
  rw [if_pos h]

theorem natRepr_ge10 {n : Nat} (h : 10 ≤ n) :
    natRepr n = natRepr (n / 10) ++ [digitChar (n % 10)] := by
  have hdiv : n / 10 < n := Nat.div_lt_self (by omega) (by omega)
  unfold natRepr
  conv_lhs => unfold natReprGo
  rw [if_neg (by omega)]
  rw [natReprGo_append n (n / 10) [digitChar (n % 10)]]
  rw [natReprGo_fuel n (n / 10) (by omega) (n / 10 + 1) (by omega)]

theorem toNatStr_natRepr : ∀ n : Nat, toNatStr (natRepr n) = n := by
  intro n
  induction n using Nat.strong_induction_on with
  | _ n ih =>
    by_cases h : n < 10
    · rw [natRepr_lt10 h]
      unfold toNatStr
      simp only [List.foldl_cons, List.foldl_nil, Nat.mul_zero, Nat.zero_add]
      exact digitChar_val h
    · have h10 : 10 ≤ n := Nat.le_of_not_lt h
      have hdiv : n / 10 < n := Nat.div_lt_self (by omega) (by omega)
      rw [natRepr_ge10 h10]
      unfold toNatStr
      rw [List.foldl_append]
      have := ih (n / 10) hdiv
      unfold toNatStr at this
      rw [this]
      simp only [List.foldl_cons, List.foldl_nil]
      rw [digitChar_val (Nat.mod_lt n (by omega))]
      omega

theorem natRepr_injective {m n : Nat} (h : natRepr m = natRepr n) : m = n := by
  have := congrArg toNatStr h
  rwa [toNatStr_natRepr, toNatStr_natRepr] at this

theorem isDig_of_mem_natRepr : ∀ (n : Nat) (c : Char), c ∈ natRepr n → isDig c = true := by
  intro n
  induction n using Nat.strong_induction_on with
  | _ n ih =>
    intro c hc
    by_cases h : n < 10
    · rw [natRepr_lt10 h] at hc
      rcases List.mem_singleton.mp hc with rfl
      exact isDig_digitChar n
    · have h10 : 10 ≤ n := Nat.le_of_not_lt h
      have hdiv : n / 10 < n := Nat.div_lt_self (by omega) (by omega)
      rw [natRepr_ge10 h10] at hc
      rcases List.mem_append.mp hc with hc | hc
      · exact ih (n / 10) hdiv c hc
      · rcases List.mem_singleton.mp hc with rfl
        exact isDig_digitChar (n % 10)

theorem dash_not_mem_natRepr (n : Nat) : '-' ∉ natRepr n := by
  intro hmem
  have := isDig_of_mem_natRepr n '-' hmem
  simp [isDig] at this

theorem parse_segments_ok_valid {spec : Str} {total : Nat} {segs : List (Nat × Nat)}
    (h : parse_segments spec total = .ok segs) :
    ∀ sg ∈ segs, 1 ≤ sg.1 ∧ sg.1 ≤ sg.2 ∧ sg.2 ≤ total := by
  intro sg hsg
  have h₂ := parseLoop_ok_forall₂ (parse_segments_ok_loop h)
  obtain ⟨t, _, htok⟩ := forall₂_mem_right h₂ sg hsg
  exact parseToken_ok_valid htok

/-! ### Assembly lemmas -/

section AssemblyLemmas

variable {α : Type}

theorem fetchPages_range' (doc : List α) : ∀ (n i : Nat), i + n ≤ doc.length →
    fetchPages doc (List.range' i n) = .ok ((doc.drop i).take n) := by
  intro n
  induction n with
  | zero => intro i _; simp [fetchPages, List.range']
  | succ n ih =>
    intro i h
    have hi : i < doc.length := by omega
    rw [List.range'_succ]
    unfold fetchPages getPage
    rw [List.getElem?_eq_getElem hi]
    simp only [bind, Except.bind]
    rw [ih (i + 1) (by omega)]
    rw [List.drop_eq_getElem_cons hi, List.take_succ_cons]

theorem splitLoop_ok (doc : List α) (base : Str) : ∀ (segs : List (Nat × Nat)),
    (∀ sg ∈ segs, 1 ≤ sg.1 ∧ sg.1 ≤ sg.2 ∧ sg.2 ≤ doc.length) →
    splitLoop doc base segs = .ok (segs.map fun sg =>
      (segName base sg.1 sg.2, (doc.drop (sg.1 - 1)).take (sg.2 - (sg.1 - 1)))) := by
  intro segs
  induction segs with
  | nil => intro _; rfl
  | cons sg rest ih =>
    intro hv
    obtain ⟨s, e⟩ := sg
    obtain ⟨h1, h2, h3⟩ := hv (s, e) (List.mem_cons_self _ _)
    unfold splitLoop
    rw [fetchPages_range' doc (e - (s - 1)) (s - 1) (by omega)]
    simp only [bind, Except.bind]
    rw [ih (fun x hx => hv x (List.mem_cons_of_mem _ hx))]
    rfl

theorem split_pdf_ok {doc : List α} {spec fname : Str} {segs : List (Nat × Nat)}
    (h : parse_segments spec doc.length = .ok segs) :
    split_pdf doc spec fname = .ok (segs.map fun sg =>
      (segName (baseOf fname) sg.1 sg.2,
        (doc.drop (sg.1 - 1)).take (sg.2 - (sg.1 - 1)))) := by
  unfold split_pdf
  simp only [h, bind, Except.bind]
  exact splitLoop_ok doc (baseOf fname) segs (parse_segments_ok_valid h)

theorem extractLoop_ok (doc : List α) : ∀ (ts : List Str),
    (∀ t ∈ ts, isDigitStr t = true ∧ 1 ≤ toNatStr t ∧ toNatStr t ≤ doc.length) →
    ∃ out, extractLoop doc doc.length ts = .ok out ∧
      List.Forall₂ (fun t pg => doc[toNatStr t - 1]? = some pg) ts out := by
  intro ts
  induction ts with
  | nil => exact fun _ => ⟨[], rfl, List.Forall₂.nil⟩
  | cons t ts ih =>
    intro hv
    obtain ⟨hd, h1, h2⟩ := hv t (List.mem_cons_self _ _)
    obtain ⟨out, hout, hfa⟩ := ih (fun u hu => hv u (List.mem_cons_of_mem _ hu))
    have hidx : toNatStr t - 1 < doc.length := by omega
    refine ⟨doc[toNatStr t - 1] :: out, ?_, ?_⟩
    · unfold extractLoop getPage
      rw [if_neg (by simp [hd])]
      rw [if_neg (by simp; omega)]
      rw [List.getElem?_eq_getElem hidx]
      simp only [bind, Except.bind, hout]
    · exact List.Forall₂.cons (List.getElem?_eq_getElem hidx) hfa

theorem extractLoop_head_not_digit (doc : List α) {t : Str} (ts : List Str)
    (ht : ¬ isDigitStr t = true) :
    extractLoop doc doc.length (t :: ts) = .error (.invalidPageNumber t) := by
  unfold extractLoop
  rw [if_pos (by simp [ht])]

theorem extractLoop_head_oob (doc : List α) {t : Str} (ts : List Str)
    (ht : isDigitStr t = true) (hb : toNatStr t < 1 ∨ doc.length < toNatStr t) :
    extractLoop doc doc.length (t :: ts) = .error (.pageOutOfBounds (toNatStr t) doc.length) := by
  unfold extractLoop
  rw [if_neg (by simp [ht])]
  rw [if_pos (by simp; omega)]

theorem extractLoop_failfast (doc : List α) {e : PdfError} :
    ∀ (ts₁ : List Str) (t : Str) (ts₂ : List Str),
    (∀ u ∈ ts₁, isDigitStr u = true ∧ 1 ≤ toNatStr u ∧ toNatStr u ≤ doc.length) →
    extractLoop doc doc.length (t :: ts₂) = .error e →
    extractLoop doc doc.length (ts₁ ++ t :: ts₂) = .error e := by
  intro ts₁
  induction ts₁ with
  | nil => intro t ts₂ _ h; exact h
  | cons u us ih =>
    intro t ts₂ hv h
    obtain ⟨hd, h1, h2⟩ := hv u (List.mem_cons_self _ _)
    have hidx : toNatStr u - 1 < doc.length := by omega
    rw [List.cons_append]
    unfold extractLoop getPage
    rw [if_neg (by simp [hd])]
    rw [if_neg (by simp; omega)]
    rw [List.getElem?_eq_getElem hidx]
    simp only [bind, Except.bind]
    rw [ih t ts₂ (fun v hv' => hv v (List.mem_cons_of_mem _ hv')) h]

theorem isAssemblyFailure_error_iff {β : Type} {e : PdfError} :
    isAssemblyFailure (Except.error e : Except PdfError β) = false ↔ e ≠ .assemblyError := by
  cases e <;> simp [isAssemblyFailure]

theorem parseToken_no_assembly (total : Nat) (t : Str) :
    isAssemblyFailure (parseToken total t) = false := by
  unfold parseToken checkSeg
  repeat' split
  all_goals rfl

theorem parseLoop_no_assembly (total : Nat) : ∀ (ts : List Str),
    isAssemblyFailure (parseLoop total ts) = false := by
  intro ts
  induction ts with
  | nil => rfl
  | cons t ts ih =>
    unfold parseLoop
    cases htok : parseToken total t with
    | error e =>
      have := parseToken_no_assembly total t
      rw [htok] at this
      simp only [bind, Except.bind]
      exact isAssemblyFailure_error_iff.mpr (isAssemblyFailure_error_iff.mp this)
    | ok sg =>
      cases hrest : parseLoop total ts with
      | error e =>
        rw [hrest] at ih
        simp only [bind, Except.bind]
        exact isAssemblyFailure_error_iff.mpr (isAssemblyFailure_error_iff.mp ih)
      | ok rest => simp [bind, Except.bind, isAssemblyFailure]

theorem parse_segments_no_assembly (spec : Str) (total : Nat) :
    isAssemblyFailure (parse_segments spec total) = false := by
  unfold parse_segments
  split
  · rfl
  · exact parseLoop_no_assembly total (tokensOf spec)

theorem split_pdf_no_assembly {α : Type} (doc : List α) (spec fname : Str) :
    isAssemblyFailure (split_pdf doc spec fname) = false := by
  cases hp : parse_segments spec doc.length with
  | error e =>
    have := parse_segments_no_assembly spec doc.length
    rw [hp] at this
    unfold split_pdf
    simp only [hp, bind, Except.bind]
    exact isAssemblyFailure_error_iff.mpr (isAssemblyFailure_error_iff.mp this)
  | ok segs => rw [split_pdf_ok hp]; rfl

theorem extractLoop_no_assembly {α : Type} (doc : List α) : ∀ (ts : List Str),
    isAssemblyFailure (extractLoop doc doc.length ts) = false := by
  intro ts
  induction ts with
  | nil => rfl
  | cons t ts ih =>
    by_cases hd : isDigitStr t = true
    · by_cases hb : toNatStr t < 1 ∨ doc.length < toNatStr t
      · rw [extractLoop_head_oob doc ts hd hb]; rfl
      · push_neg at hb
        have hidx : toNatStr t - 1 < doc.length := by omega
        unfold extractLoop getPage
        rw [if_neg (by simp [hd])]
        rw [if_neg (by simp; omega)]
        rw [List.getElem?_eq_getElem hidx]
        cases hrest : extractLoop doc doc.length ts with
        | error e =>
          rw [hrest] at ih
          simpa [bind, Except.bind] using ih
        | ok rest => simp [bind, Except.bind, isAssemblyFailure]
    · rw [extractLoop_head_not_digit doc ts hd]; rfl

theorem extract_pages_no_assembly {α : Type} (doc : List α) (text : Str) :
    isAssemblyFailure (extract_pages doc text) = false :=
  extractLoop_no_assembly doc (extractTokens text)

theorem foldl_add_page {α : Type} : ∀ (d w : List α),
    d.foldl (fun w pg => w ++ [pg]) w = w ++ d := by
  intro d
  induction d with
  | nil => intro w; simp
  | cons a d ih =>
    intro w
    rw [List.foldl_cons, ih (w ++ [a]), List.append_assoc]
    rfl

theorem merge_pdfs_foldl {α : Type} : ∀ (docs : List (List α)) (w : List α),
    docs.foldl (fun writer d => d.foldl (fun w pg => w ++ [pg]) writer) w =
      w ++ docs.flatten := by
  intro docs
  induction docs with
  | nil => intro w; simp
  | cons d docs ih =>
    intro w
    rw [List.foldl_cons, foldl_add_page, ih (w ++ d), List.flatten_cons, List.append_assoc]

theorem merge_pdfs_eq_flatten {α : Type} (docs : List (List α)) :
    merge_pdfs docs = docs.flatten := by
  unfold merge_pdfs
  rw [merge_pdfs_foldl docs []]
  rfl

end AssemblyLemmas

/-! ### Output-name lemmas -/

theorem dash_decomp_unique : ∀ (a a' b b' : Str), '-' ∉ a → '-' ∉ a' →
    a ++ '-' :: b = a' ++ '-' :: b' → a = a' ∧ b = b' := by
  intro a
  induction a with
  | nil =>
    intro a' b b' _ ha'
    cases a' with
    | nil => intro h; cases h; exact ⟨rfl, rfl⟩
    | cons c cs =>
      intro h
      rw [List.nil_append, List.cons_append] at h
      injection h with hc _
      exact absurd (hc ▸ List.mem_cons_self c cs) ha'
  | cons c cs ih =>
    intro a' b b' ha ha'
    cases a' with
    | nil =>
      intro h
      rw [List.cons_append, List.nil_append] at h
      injection h with hc _
      exact absurd (hc.symm ▸ List.mem_cons_self c cs) ha
    | cons c' cs' =>
      intro h
      rw [List.cons_append, List.cons_append] at h
      injection h with hc hrest
      obtain ⟨h1, h2⟩ := ih cs' b b' (fun hm => ha (List.mem_cons_of_mem _ hm))
        (fun hm => ha' (List.mem_cons_of_mem _ hm)) hrest
      exact ⟨by rw [hc, h1], h2⟩

theorem dash_not_mem_natRepr_pdf (n : Nat) :
    '-' ∉ natRepr n ++ ['.', 'p', 'd', 'f'] := by
  intro h
  rcases List.mem_append.mp h with h | h
  · exact dash_not_mem_natRepr n h
  · simp at h

theorem segName_inj {base : Str} {s e s' e' : Nat}
    (h : segName base s e = segName base s' e') : s = s' ∧ e = e' := by
  unfold segName at h
  by_cases hse : s = e <;> by_cases hse' : s' = e' <;>
      simp only [hse, hse', if_pos, if_neg, ite_true, ite_false] at h
  · have h' := List.append_cancel_left h
    injection h' with _ h'
    injection h' with _ h'
    have := natRepr_injective (List.append_cancel_right h')
    omega
  · have h' := List.append_cancel_left h
    injection h' with _ h'
    injection h' with _ h'
    exfalso
    have hmem : '-' ∈ natRepr e ++ ['.', 'p', 'd', 'f'] := by
      rw [h']
      exact List.mem_append.mpr (Or.inr (List.mem_cons_self _ _))
    exact dash_not_mem_natRepr_pdf e hmem
  · have h' := List.append_cancel_left h
    injection h' with _ h'
    injection h' with _ h'
    exfalso
    have hmem : '-' ∈ natRepr e' ++ ['.', 'p', 'd', 'f'] := by
      rw [← h']
      exact List.mem_append.mpr (Or.inr (List.mem_cons_self _ _))
    exact dash_not_mem_natRepr_pdf e' hmem
  · have h' := List.append_cancel_left h
    injection h' with _ h'
    injection h' with _ h'
    obtain ⟨ha, hb⟩ := dash_decomp_unique _ _ _ _
      (dash_not_mem_natRepr s) (dash_not_mem_natRepr s') h'
    have hs := natRepr_injective ha
    have he := natRepr_injective (List.append_cancel_right hb)
    exact ⟨hs, he⟩

/-! ### Claims -/

/-- C1: whenever the spec parses successfully, the parser returns one
`(start, end)` segment per non-empty comma-separated token, in token order,
with no de-duplication or merging; a bare number `n` yields `(n, n)` and a
range `a-b` yields `(a, b)` (the correspondence is `tokenValue`); in
particular `parse("1,3-5,7", 10) = [(1,1),(3,5),(7,7)]` and
`parse("1,,3", 5) = [(1,1),(3,3)]`. -/
theorem parser_token_segment_correspondence :
    (∀ (spec : Str) (total : Nat) (segs : List (Nat × Nat)),
      parse_segments spec total = .ok segs →
      List.Forall₂ (fun t sg => sg = tokenValue t) (tokensOf spec) segs) ∧
    parse_segments ['1', ',', '3', '-', '5', ',', '7'] 10 = .ok [(1, 1), (3, 5), (7, 7)] ∧
    parse_segments ['1', ',', ',', '3'] 5 = .ok [(1, 1), (3, 3)] := by
  refine ⟨?_, by decide, by decide⟩
  intro spec total segs h
  exact (parseLoop_ok_forall₂ (parse_segments_ok_loop h)).imp
    (fun t sg htok => parseToken_ok_value htok)

/-- Witness for C1 at the spec `"1,3-5,7"` and total page count 10. -/
theorem parser_token_segment_correspondence_witness :
    List.Forall₂ (fun t sg => sg = tokenValue t)
      (tokensOf ['1', ',', '3', '-', '5', ',', '7']) [(1, 1), (3, 5), (7, 7)] :=
  parser_token_segment_correspondence.1 ['1', ',', '3', '-', '5', ',', '7'] 10
    [(1, 1), (3, 5), (7, 7)] (by decide)

/-- C2: a well-formed token whose value has `start < 1`, `end < 1` or
`end < start` is rejected with `invalidSegment` naming the token; one with
`end > totalPages` (after the segment check passes) is rejected with
`segmentOutOfBounds` naming the token and the bound; the overall parse fails
with the error of the first offending token, any earlier tokens having
parsed successfully (fail-fast); e.g. `parse("5-3", 10)` is `invalidSegment`
on `"5-3"`, `parse("1,11", 10)` is out-of-bounds on `"11"`, and with several
bad tokens (`"5-3,11"`) the error of the first one is reported. -/
theorem parser_failfast_errors :
    (∀ (total : Nat) (t : Str), tokenWellFormed t = true →
      ((tokenValue t).1 < 1 ∨ (tokenValue t).2 < 1 ∨ (tokenValue t).2 < (tokenValue t).1 →
        parseToken total t = .error (.invalidSegment t)) ∧
      (1 ≤ (tokenValue t).1 → (tokenValue t).1 ≤ (tokenValue t).2 →
        total < (tokenValue t).2 →
        parseToken total t = .error (.segmentOutOfBounds t total))) ∧
    (∀ (spec : Str) (total : Nat) (ts₁ ts₂ : List Str) (t : Str) (e : PdfError),
      tokensOf spec = ts₁ ++ t :: ts₂ →
      (∀ u ∈ ts₁, ∃ sg, parseToken total u = .ok sg) →
      parseToken total t = .error e →
      parse_segments spec total = .error e) ∧
    parse_segments ['5', '-', '3'] 10 = .error (.invalidSegment ['5', '-', '3']) ∧
    parse_segments ['1', ',', '1', '1'] 10 = .error (.segmentOutOfBounds ['1', '1'] 10) ∧
    parse_segments ['5', '-', '3', ',', '1', '1'] 10 =
      .error (.invalidSegment ['5', '-', '3']) := by
  refine ⟨?_, ?_, by decide, by decide, by decide⟩
  · intro total t hw
    constructor
    · intro hbad
      rw [parseToken_wellFormed_eq hw]
      exact checkSeg_invalid hbad
    · intro h1 h2 h3
      rw [parseToken_wellFormed_eq hw]
      exact checkSeg_oob h1 h2 h3
  · intro spec total ts₁ ts₂ t e htoks hok ht
    exact parse_segments_failfast htoks hok ht

/-- Witness for C2: the token `"5-3"` is well-formed, its value `(5, 3)` has
`end < start`, and in the spec `"1,5-3"` (whose first token parses fine) the
parse fails with `invalidSegment "5-3"`. -/
theorem parser_failfast_errors_witness :
    parseToken 10 ['5', '-', '3'] = .error (.invalidSegment ['5', '-', '3']) ∧
    parse_segments ['1', ',', '5', '-', '3'] 10 =
      .error (.invalidSegment ['5', '-', '3']) := by
  constructor
  · exact ((parser_failfast_errors.1 10 ['5', '-', '3'] (by decide)).1 (by decide))
  · exact parser_failfast_errors.2.1 ['1', ',', '5', '-', '3'] 10 [['1']] []
      ['5', '-', '3'] (.invalidSegment ['5', '-', '3']) (by decide)
      (by intro u hu; exact ⟨(1, 1), by rcases List.mem_singleton.mp hu with rfl; decide⟩)
      (by decide)

/-- C3 counterexample: the naming rule of the claim omits the `.pdf` suffix the
code appends. Splitting a one-page `"doc.pdf"` with spec `"1"` produces the
name `"doc_p1.pdf"`, not the claimed `"doc_p1"`. -/
theorem split_name_pdf_suffix_cex :
    split_pdf ([42] : List Nat) ['1'] ['d', 'o', 'c', '.', 'p', 'd', 'f'] =
      .ok [(['d', 'o', 'c', '_', 'p', '1', '.', 'p', 'd', 'f'], [42])] ∧
    split_pdf ([42] : List Nat) ['1'] ['d', 'o', 'c', '.', 'p', 'd', 'f'] ≠
      .ok [(['d', 'o', 'c', '_', 'p', '1'], [42])] := by
  constructor
  · decide
  · decide

/-- C3 amended: for every source filename and spec parsing into `k` segments,
split produces exactly the `k` outputs, one per segment in order; the output
for `(start, end)` holds exactly pages `start..end` of the source in order
and is named `<base>_p<start>.pdf` when `start = end` and
`<base>_p<start>-<end>.pdf` otherwise (`segName`), with `<base>` the filename
with its final extension removed if one exists (`baseOf`). -/
theorem split_outputs_per_segment : ∀ {α : Type} (doc : List α) (spec fname : Str)
    (segs : List (Nat × Nat)),
    parse_segments spec doc.length = .ok segs →
    split_pdf doc spec fname = .ok (segs.map fun sg =>
      (segName (baseOf fname) sg.1 sg.2,
        (doc.drop (sg.1 - 1)).take (sg.2 - (sg.1 - 1)))) := by
  intro α doc spec fname segs h
  exact split_pdf_ok h

/-- Witness for C3 at a three-page `"doc.pdf"` with spec `"1,2-3"`. -/
theorem split_outputs_per_segment_witness :
    split_pdf ([10, 20, 30] : List Nat) ['1', ',', '2', '-', '3']
      ['d', 'o', 'c', '.', 'p', 'd', 'f'] =
      .ok ([(1, 1), (2, 3)].map fun sg =>
        (segName (baseOf ['d', 'o', 'c', '.', 'p', 'd', 'f']) sg.1 sg.2,
          (([10, 20, 30] : List Nat).drop (sg.1 - 1)).take (sg.2 - (sg.1 - 1)))) :=
  split_outputs_per_segment [10, 20, 30] ['1', ',', '2', '-', '3']
    ['d', 'o', 'c', '.', 'p', 'd', 'f'] [(1, 1), (2, 3)] (by decide)

/-- C4: when every token of the page list is a bare decimal number within
`1..totalPages`, extract succeeds with exactly the listed source pages in the
exact order given (duplicates and out-of-order preserved); a non-numeric
token fails with `invalidPageNumber` and an out-of-bounds one with
`pageOutOfBounds`, fail-fast at the first bad token; `"3,1,1"` yields pages
`[3,1,1]`, and the range token `"3-5"` is not accepted. -/
theorem extract_order_and_errors :
    (∀ {α : Type} (doc : List α) (text : Str),
      (∀ t ∈ extractTokens text,
        isDigitStr t = true ∧ 1 ≤ toNatStr t ∧ toNatStr t ≤ doc.length) →
      ∃ out, extract_pages doc text = .ok out ∧
        List.Forall₂ (fun t pg => doc[toNatStr t - 1]? = some pg)
          (extractTokens text) out) ∧
    (∀ {α : Type} (doc : List α) (text : Str) (ts₁ ts₂ : List Str) (t : Str),
      extractTokens text = ts₁ ++ t :: ts₂ →
      (∀ u ∈ ts₁, isDigitStr u = true ∧ 1 ≤ toNatStr u ∧ toNatStr u ≤ doc.length) →
      (¬ isDigitStr t = true →
        extract_pages doc text = .error (.invalidPageNumber t)) ∧
      (isDigitStr t = true → toNatStr t < 1 ∨ doc.length < toNatStr t →
        extract_pages doc text = .error (.pageOutOfBounds (toNatStr t) doc.length))) ∧
    extract_pages ([10, 20, 30] : List Nat) ['3', ',', '1', ',', '1'] =
      .ok [30, 10, 10] ∧
    extract_pages ([10, 20, 30, 40, 50] : List Nat) ['3', '-', '5'] =
      .error (.invalidPageNumber ['3', '-', '5']) := by
  refine ⟨?_, ?_, by decide, by decide⟩
  · intro α doc text hv
    exact extractLoop_ok doc (extractTokens text) hv
  · intro α doc text ts₁ ts₂ t htoks hok
    constructor
    · intro hd
      unfold extract_pages
      rw [htoks]
      exact extractLoop_failfast doc ts₁ t ts₂ hok (extractLoop_head_not_digit doc ts₂ hd)
    · intro hd hb
      unfold extract_pages
      rw [htoks]
      exact extractLoop_failfast doc ts₁ t ts₂ hok (extractLoop_head_oob doc ts₂ hd hb)

/-- Witness for C4 at the page list `"3,1,1"` on a three-page document. -/
theorem extract_order_and_errors_witness :
    ∃ out, extract_pages ([10, 20, 30] : List Nat) ['3', ',', '1', ',', '1'] = .ok out ∧
      List.Forall₂ (fun t pg => ([10, 20, 30] : List Nat)[toNatStr t - 1]? = some pg)
        (extractTokens ['3', ',', '1', ',', '1']) out :=
  extract_order_and_errors.1 ([10, 20, 30] : List Nat) ['3', ',', '1', ',', '1']
    (by decide)

/-- C5: merge concatenates the source documents in input order: two documents
with page counts A and B give one output of exactly A + B pages, the first
pages of the first document (in order) preceding those of the second; the result is
the flattening of the input documents. -/
theorem merge_concatenation : ∀ {α : Type} (d1 d2 : List α) (docs : List (List α)),
    merge_pdfs [d1, d2] = d1 ++ d2 ∧
    (merge_pdfs [d1, d2]).length = d1.length + d2.length ∧
    merge_pdfs docs = docs.flatten := by
  intro α d1 d2 docs
  have h2 : merge_pdfs [d1, d2] = d1 ++ d2 := by
    rw [merge_pdfs_eq_flatten]
    simp
  exact ⟨h2, by rw [h2, List.length_append], merge_pdfs_eq_flatten docs⟩

/-- C6 counterexample: on an empty page list the core extract function does
not fail with a no-pages error — it succeeds and returns an output with an
empty page sequence. -/
theorem extract_empty_returns_empty_cex :
    extract_pages ([10, 20] : List Nat) [] = .ok [] := by decide

/-- C6 amended: for every input whose page list contains no tokens, the core
extract function succeeds and returns an output with an empty page sequence;
the rejection of empty input happens in the presentation layer, not in
`extract_pages`, and there is no distinct no-pages error in the core. -/
theorem extract_empty_tokens_ok : ∀ {α : Type} (doc : List α) (text : Str),
    extractTokens text = [] → extract_pages doc text = .ok [] := by
  intro α doc text h
  unfold extract_pages
  rw [h]
  rfl

/-- Witness for C6 at the page list `" ,"` (whitespace and a stray comma)
on a two-page document. -/
theorem extract_empty_tokens_ok_witness :
    extract_pages ([10, 20] : List Nat) [' ', ','] = .ok [] :=
  extract_empty_tokens_ok ([10, 20] : List Nat) [' ', ','] (by decide)

/-- C7 counterexample: duplicate segments are legal inputs but produce
duplicate output names: splitting a two-page `"doc.pdf"` with spec `"1,1"`
yields two outputs both named `"doc_p1.pdf"`, so the output names of one split
outputs are not pairwise distinct. -/
theorem split_duplicate_names_cex :
    split_pdf ([10, 20] : List Nat) ['1', ',', '1'] ['d', 'o', 'c', '.', 'p', 'd', 'f'] =
      .ok [(['d', 'o', 'c', '_', 'p', '1', '.', 'p', 'd', 'f'], [10]),
        (['d', 'o', 'c', '_', 'p', '1', '.', 'p', 'd', 'f'], [10])] ∧
    ¬ ([(['d', 'o', 'c', '_', 'p', '1', '.', 'p', 'd', 'f'], ([10] : List Nat)),
        (['d', 'o', 'c', '_', 'p', '1', '.', 'p', 'd', 'f'], [10])].map Prod.fst).Nodup := by
  constructor
  · decide
  · decide

/-- C7 amended: within one successful split the output names are pairwise
distinct provided the parsed segments are pairwise distinct (overlapping
segments included); duplicate segments, which are legal, give duplicate
names. -/
theorem split_names_nodup_of_segments_nodup :
    ∀ {α : Type} (doc : List α) (spec fname : Str)
    (segs : List (Nat × Nat)) (outs : List (Str × List α)),
    parse_segments spec doc.length = .ok segs →
    split_pdf doc spec fname = .ok outs →
    segs.Nodup →
    (outs.map Prod.fst).Nodup := by
  intro α doc spec fname segs outs hp hs hn
  rw [split_pdf_ok hp] at hs
  injection hs with hs
  subst hs
  rw [List.map_map]
  refine List.Nodup.map_on ?_ hn
  intro x hx y hy hxy
  obtain ⟨ha, hb⟩ := segName_inj hxy
  obtain ⟨x1, x2⟩ := x
  obtain ⟨y1, y2⟩ := y
  simp only at ha hb
  rw [ha, hb]

/-- Witness for C7 at a three-page `"doc.pdf"` with spec `"1,2-3"` (distinct
segments). -/
theorem split_names_nodup_of_segments_nodup_witness :
    (([(['d', 'o', 'c', '_', 'p', '1', '.', 'p', 'd', 'f'], ([10] : List Nat)),
      (['d', 'o', 'c', '_', 'p', '2', '-', '3', '.', 'p', 'd', 'f'],
        [20, 30])]).map Prod.fst).Nodup :=
  split_names_nodup_of_segments_nodup ([10, 20, 30] : List Nat)
    ['1', ',', '2', '-', '3'] ['d', 'o', 'c', '.', 'p', 'd', 'f']
    [(1, 1), (2, 3)] _ (by decide) (by decide) (by decide)

/-- C8 counterexample: the parser removes only spaces, not all whitespace:
`"\t1"` and `"1"` differ only in whitespace yet parse differently, and the
whitespace-only spec `"\t"` fails with a malformed-number error, not
`emptySpec`. -/
theorem parse_tab_not_whitespace_cex :
    parse_segments ['\t', '1'] 5 = .error (.invalidPageNumber ['\t', '1']) ∧
    parse_segments ['1'] 5 = .ok [(1, 1)] ∧
    parse_segments ['\t'] 5 = .error (.invalidPageNumber ['\t']) := by
  refine ⟨by decide, by decide, by decide⟩

/-- C8 amended: the parser first removes all space characters `' '` (only —
tabs and newlines are not whitespace to it), so two specs with the same
characters up to spaces parse to the same result, and a spec consisting only
of spaces (or empty) fails with `emptySpec`. -/
theorem parse_space_insensitive : ∀ (s₁ s₂ : Str) (total : Nat),
    (stripSpaces s₁ = stripSpaces s₂ →
      parse_segments s₁ total = parse_segments s₂ total) ∧
    (s₁.all (· = ' ') = true → parse_segments s₁ total = .error .emptySpec) := by
  intro s₁ s₂ total
  constructor
  · intro h
    unfold parse_segments tokensOf
    rw [h]
  · intro h
    unfold parse_segments
    rw [if_pos]
    rw [List.isEmpty_iff]
    unfold stripSpaces
    rw [List.filter_eq_nil_iff]
    intro a ha
    rw [List.all_eq_true] at h
    simpa using h a ha

/-- Witness for C8: `"1 2"` and `" 12"` agree up to spaces and parse alike;
`" "` parses to `emptySpec`. -/
theorem parse_space_insensitive_witness :
    parse_segments ['1', ' ', '2'] 20 = parse_segments [' ', '1', '2'] 20 ∧
    parse_segments [' '] 20 = .error .emptySpec :=
  ⟨(parse_space_insensitive ['1', ' ', '2'] [' ', '1', '2'] 20).1 (by decide),
    (parse_space_insensitive [' '] [' '] 20).2 (by decide)⟩

/-- C9: after successful validation every page access during assembly is
within the document: neither split nor extract can ever return the defensive
`assemblyError` (an out-of-range page access), whatever the input. -/
theorem assembly_error_unreachable :
    ∀ {α : Type} (doc : List α) (spec fname text : Str),
    isAssemblyFailure (split_pdf doc spec fname) = false ∧
    isAssemblyFailure (extract_pages doc text) = false :=
  fun doc spec fname text =>
    ⟨split_pdf_no_assembly doc spec fname, extract_pages_no_assembly doc text⟩

/-- C10: merging the empty sequence of documents does not fail: it yields a
document with zero pages. -/
theorem merge_empty_no_failure :
    ∀ {α : Type}, merge_pdfs ([] : List (List α)) = ([] : List α) ∧
      (merge_pdfs ([] : List (List α))).length = 0 :=
  ⟨rfl, rfl⟩

end PdfStudio
